import Mathlib

/-!
Verification of the cfloader library core (packet codecs, bootloader link,
bootloader command layer, flashing and reading engines) against its
specification.  The definitions below are a shallow embedding of the Rust
sources: bytes are `Nat` values below 256, byte strings are `List Nat`,
u16/u32 casts are made explicit with `% 65536` / `% 4294967296` where the
truncation is reachable, fallible code returns `Except`/`Option`, and a Rust
panic (an abort of the whole process, as opposed to an error value returned
to the caller) is modelled by a dedicated `panicked` constructor.
Polled loops whose exit depends on wall-clock timeouts are modelled with an
explicit fuel argument counting radio interactions; running out of fuel
models the timeout window closing (or, for the flashing loops, divergence).
-/

set_option autoImplicit false

namespace CFL

/-- Result of a Rust function that either returns a value or aborts the whole
process via a panic (index out of bounds, explicit panic macro). The
`panicked` constructor is not an error value visible to the caller: it models
process termination. -/
inductive PResult (α : Type) where
  | ok : α → PResult α
  | panicked : PResult α
deriving DecidableEq

/-- Little-endian decoding of two bytes into a u16 value
(`u16::from_le_bytes([lo, hi])`). -/
def u16le (lo hi : Nat) : Nat := lo + 256 * hi

/-- `u16::to_le_bytes` of a value held as `Nat`. -/
def toLE2 (n : Nat) : List Nat := [n % 256, n / 256 % 256]

/-- Info record of one bootloader target
(`InfoPacket`, src/packets.rs lines 32-39). -/
structure InfoPacket where
  page_size : Nat
  n_buff_page : Nat
  n_flash_page : Nat
  flash_start : Nat
  cpu_id : List Nat
  version : Nat
deriving DecidableEq

namespace InfoPacket

/-- `InfoPacket::from_bytes` (src/packets.rs lines 53-65).  The input is the
response with the leading two bytes already sliced off, so byte 0 is the
command echo and the payload starts at byte 1.  Inputs shorter than 22 bytes
make the Rust code execute `panic!`, modelled by `PResult.panicked`. -/
def from_bytes (bytes : List Nat) : PResult InfoPacket :=
  if bytes.length < 22 then .panicked
  else
    .ok
      { page_size := u16le (bytes.getD 1 0) (bytes.getD 2 0)
        n_buff_page := u16le (bytes.getD 3 0) (bytes.getD 4 0)
        n_flash_page := u16le (bytes.getD 5 0) (bytes.getD 6 0)
        flash_start := u16le (bytes.getD 7 0) (bytes.getD 8 0)
        cpu_id := (bytes.drop 9).take 12
        version := bytes.getD 21 0 }

end InfoPacket

/-- `FlashReadPacket` (src/packets.rs lines 244-251). -/
structure FlashReadPacket where
  page : Nat
  address : Nat
  data : List Nat
deriving DecidableEq

namespace FlashReadPacket

/-- `FlashReadPacket::from_bytes` (src/packets.rs lines 263-273).  The input
is the response with the leading two bytes already sliced off, so byte 0 is
the command echo, bytes 1-4 are page and offset (little endian) and the data
is everything from byte 5 on.  Inputs shorter than 5 bytes make the Rust
code execute `panic!`, modelled by `PResult.panicked`. -/
def from_bytes (bytes : List Nat) : PResult FlashReadPacket :=
  if bytes.length < 5 then .panicked
  else
    .ok
      { page := u16le (bytes.getD 1 0) (bytes.getD 2 0)
        address := u16le (bytes.getD 3 0) (bytes.getD 4 0)
        data := bytes.drop 5 }

end FlashReadPacket

/-- Error codes of flash operations (`FlashError`, src/packets.rs 290-299). -/
inductive FlashError where
  | noError
  | addressOutOfBounds
  | flashEraseFailed
  | flashProgrammingFailed
deriving DecidableEq

/-- `impl From<u8> for FlashError` (src/packets.rs lines 301-311): unknown
codes collapse to `noError`. -/
def FlashError.fromByte (value : Nat) : FlashError :=
  if value = 0 then .noError
  else if value = 1 then .addressOutOfBounds
  else if value = 2 then .flashEraseFailed
  else if value = 3 then .flashProgrammingFailed
  else .noError

/-- `FlashWriteResponse` (src/packets.rs lines 172-177). -/
structure FlashWriteResponse where
  done : Nat
  error : Nat
deriving DecidableEq

namespace FlashWriteResponse

/-- `FlashWriteResponse::from_bytes` (src/packets.rs lines 189-197): byte 0
is the command echo, byte 1 is `done`, byte 2 is `error`; shorter inputs
panic. -/
def from_bytes (bytes : List Nat) : PResult FlashWriteResponse :=
  if bytes.length < 3 then .panicked
  else .ok { done := bytes.getD 1 0, error := bytes.getD 2 0 }

/-- `FlashWriteResponse::is_done` (src/packets.rs lines 204-206). -/
def is_done (r : FlashWriteResponse) : Bool := r.done != 0

/-- `FlashWriteResponse::is_success` (src/packets.rs lines 222-224). -/
def is_success (r : FlashWriteResponse) : Bool :=
  r.is_done && (FlashError.fromByte r.error == FlashError.noError)

end FlashWriteResponse

/-- Outcome of the response-processing part of `Bootloader::get_vbat`
(src/bootloader.rs lines 347-357).  `invalidLength` is the error value
returned to the caller; `panicked` models the index-out-of-bounds abort. -/
inductive VbatResult where
  | ok : List Nat → VbatResult
  | invalidLength : VbatResult
  | panicked : VbatResult
deriving DecidableEq

/-- The radio primitive consumed by the link.  A radio script maps the index
of a `send_packet` call (counted from the start of the run) to its outcome:
`none` models a radio driver error (`Err` from `send_packet_async`);
`some (ack, response)` models a completed call returning the ACK flag and
the piggybacked response payload. -/
def Radio : Type := Nat → Option (Bool × List Nat)

/-- Errors produced by the link and command layers (the crate uses anyhow
errors; this enumerates the distinct failure constructions of the modelled
code paths).  `retriesExhausted e` models the wrapper error built by the
MAX_RETRIES loops, whose message embeds the last attempt error `e`. -/
inductive BlError where
  | radioError
  | noAck
  | noValidResponse
  | invalidArgument
  | payloadTooLarge
  | retriesExhausted : BlError → BlError
deriving DecidableEq

namespace Bllink

/-- `MAX_RETRIES` (src/bllink.rs line 23). -/
def MAX_RETRIES : Nat := 10

/-- The shared retry loop of `request`, `request_match_response` and
`send_with_timeout` (src/bllink.rs lines 84-99, 122-137, 273-286): run the
single-attempt function up to `n` times, threading the radio call index;
return the first success, and after the last failed attempt return the
wrapper error embedding the last attempt error. -/
def retryWith {α : Type} (try1 : Nat → Except BlError α × Nat) :
    Nat → Nat → Except BlError α × Nat
  | 0, idx => (.error (.retriesExhausted .noAck), idx)
  | 1, idx =>
    match try1 idx with
    | (.ok a, i) => (.ok a, i)
    | (.error e, i) => (.error (.retriesExhausted e), i)
  | n + 2, idx =>
    match try1 idx with
    | (.ok a, i) => (.ok a, i)
    | (.error _, i) => retryWith try1 (n + 1) i

/-- `Bllink::try_send` (src/bllink.rs lines 290-306): keep calling the radio
until an ACK is seen; `fuel` counts the radio calls the timeout window
admits.  Returns the result together with the next radio call index. -/
def try_send (radio : Radio) (data : List Nat) :
    Nat → Nat → Except BlError Unit × Nat
  | 0, idx => (.error .noAck, idx)
  | fuel + 1, idx =>
    match radio idx with
    | none => (.error .radioError, idx + 1)
    | some (ack, _resp) =>
      if ack then (.ok (), idx + 1)
      else try_send radio data fuel (idx + 1)

/-- `Bllink::send_with_timeout` (src/bllink.rs lines 272-287). -/
def send_with_timeout (radio : Radio) (data : List Nat) (fuel idx : Nat) :
    Except BlError Unit × Nat :=
  retryWith (try_send radio data fuel) MAX_RETRIES idx

/-- `Bllink::send` (src/bllink.rs lines 251-253): `send_with_timeout` with
the default 1000 ms window. -/
def send (radio : Radio) (data : List Nat) (fuel idx : Nat) :
    Except BlError Unit × Nat :=
  send_with_timeout radio data fuel idx

/-- First phase of `try_request` / `try_request_match_response`
(src/bllink.rs lines 153-169 and 201-217): send `data` until an ACK is
received, capturing the piggybacked answer; returns the answer, the fuel
left of the shared timeout window, and the next call index. -/
def ack_phase (radio : Radio) (data : List Nat) :
    Nat → Nat → Except BlError (List Nat) × Nat × Nat
  | 0, idx => (.error .noAck, 0, idx)
  | fuel + 1, idx =>
    match radio idx with
    | none => (.error .radioError, fuel, idx + 1)
    | some (ack, resp) =>
      if ack then (.ok resp, fuel, idx + 1)
      else ack_phase radio data fuel (idx + 1)

/-- Second phase of `try_request` / `try_request_match_response`
(src/bllink.rs lines 171-182 and 219-230): while the candidate answer does
not satisfy the validity check, poll with the one-byte filler payload; each
ACKed poll replaces the candidate. -/
def poll_phase (radio : Radio) (pred : List Nat → Bool) :
    Nat → List Nat → Nat → Except BlError (List Nat) × Nat
  | 0, ans, idx => (.ok ans, idx)
  | fuel + 1, ans, idx =>
    if pred ans then (.ok ans, idx)
    else
      match radio idx with
      | none => (.error .radioError, idx + 1)
      | some (ack, newans) =>
        poll_phase radio pred fuel (if ack then newans else ans) (idx + 1)

/-- Common body of `Bllink::try_request` and
`Bllink::try_request_match_response` after validation: ack phase, poll
phase, then the final validity check (src/bllink.rs lines 184-192 and
232-236). -/
def try_request_generic (radio : Radio) (data : List Nat)
    (pred : List Nat → Bool) (fuel idx : Nat) :
    Except BlError (List Nat) × Nat :=
  match ack_phase radio data fuel idx with
  | (.error e, _, i) => (.error e, i)
  | (.ok ans, fuel2, i) =>
    match poll_phase radio pred fuel2 ans i with
    | (.error e, i2) => (.error e, i2)
    | (.ok ans2, i2) =>
      if pred ans2 then (.ok ans2, i2) else (.error .noValidResponse, i2)

/-- `Bllink::try_request` (src/bllink.rs lines 196-237): the validity check
is `answer.starts_with(data)`. -/
def try_request (radio : Radio) (data : List Nat) (fuel idx : Nat) :
    Except BlError (List Nat) × Nat :=
  try_request_generic radio data (fun ans => data.isPrefixOf ans) fuel idx

/-- The validity check of `try_request_match_response` (src/bllink.rs line
172): the answer has at least `ml` bytes and its first `ml` bytes equal the
first `ml` bytes of the request. -/
def matchPred (data : List Nat) (ml : Nat) (ans : List Nat) : Bool :=
  decide (ml ≤ ans.length) && (ans.take ml == data.take ml)

/-- `Bllink::try_request_match_response` (src/bllink.rs lines 141-193): the
argument validation happens before any radio call. -/
def try_request_match_response (radio : Radio) (data : List Nat) (ml : Nat)
    (fuel idx : Nat) : Except BlError (List Nat) × Nat :=
  if ml > data.length then (.error .invalidArgument, idx)
  else try_request_generic radio data (matchPred data ml) fuel idx

/-- `Bllink::request` (src/bllink.rs lines 83-100). -/
def request (radio : Radio) (data : List Nat) (fuel idx : Nat) :
    Except BlError (List Nat) × Nat :=
  retryWith (try_request radio data fuel) MAX_RETRIES idx

/-- `Bllink::request_match_response` (src/bllink.rs lines 121-138). -/
def request_match_response (radio : Radio) (data : List Nat) (ml : Nat)
    (fuel idx : Nat) : Except BlError (List Nat) × Nat :=
  retryWith (try_request_match_response radio data ml fuel) MAX_RETRIES idx

end Bllink

namespace Bootloader

/-- `TARGET_STM32` (src/bootloader.rs line 31). -/
def TARGET_STM32 : Nat := 0xFF

/-- `TARGET_NRF51` (src/bootloader.rs line 33). -/
def TARGET_NRF51 : Nat := 0xFE

/-- `Bootloader::load_buffer` (src/bootloader.rs lines 138-151): data longer
than 25 bytes is rejected with the payload-too-large error before any radio
call; otherwise the framed command is sent with `Bllink::send`. -/
def load_buffer (radio : Radio) (target page address : Nat) (data : List Nat)
    (fuel idx : Nat) : Except BlError Unit × Nat :=
  if data.length > 25 then (.error .payloadTooLarge, idx)
  else
    Bllink.send radio ([0xFF, target, 0x14] ++ toLE2 page ++ toLE2 address ++ data)
      fuel idx

/-- `Bootloader::get_mapping` (src/bootloader.rs lines 112-117): request the
mapping and return `response[1..]`. -/
def get_mapping (radio : Radio) (target : Nat) (fuel idx : Nat) :
    Except BlError (List Nat) × Nat :=
  match Bllink.request radio [0xFF, target, 0x12] fuel idx with
  | (.error e, i) => (.error e, i)
  | (.ok response, i) => (.ok (response.drop 1), i)

/-- `Bootloader::reset_init` (src/bootloader.rs lines 269-273): the send
error is propagated to the caller by the question-mark operator. -/
def reset_init (radio : Radio) (target : Nat) (fuel idx : Nat) :
    Except BlError Unit × Nat :=
  match Bllink.send radio [0xFF, target, 0xFF] fuel idx with
  | (.error e, i) => (.error e, i)
  | (.ok _, i) => (.ok (), i)

/-- `Bootloader::reset` (src/bootloader.rs lines 283-288): the send result
is discarded (`let _ =`) and success is returned unconditionally. -/
def reset (radio : Radio) (target : Nat) (fuel idx : Nat) :
    Except BlError Unit × Nat :=
  let r := Bllink.send radio [0xFF, target, 0xF0] fuel idx
  (.ok (), r.2)

/-- `Bootloader::all_off` (src/bootloader.rs lines 297-302): send result
discarded. -/
def all_off (radio : Radio) (target : Nat) (fuel idx : Nat) :
    Except BlError Unit × Nat :=
  let r := Bllink.send radio [0xFF, target, 0x01] fuel idx
  (.ok (), r.2)

/-- `Bootloader::sys_off` (src/bootloader.rs lines 311-316): send result
discarded. -/
def sys_off (radio : Radio) (target : Nat) (fuel idx : Nat) :
    Except BlError Unit × Nat :=
  let r := Bllink.send radio [0xFF, target, 0x02] fuel idx
  (.ok (), r.2)

/-- `Bootloader::sys_on` (src/bootloader.rs lines 325-330): send result
discarded. -/
def sys_on (radio : Radio) (target : Nat) (fuel idx : Nat) :
    Except BlError Unit × Nat :=
  let r := Bllink.send radio [0xFF, target, 0x03] fuel idx
  (.ok (), r.2)

/-- Response processing of `Bootloader::get_vbat` (src/bootloader.rs lines
347-357), as a function of the link response: if the response is shorter
than 4 bytes an error is returned; otherwise the code indexes bytes 2, 3, 4
and 5 of the response (panicking when any index is out of bounds) and
returns them as the little-endian representation of the f32 value.  The
model returns the four bytes themselves; IEEE decoding is not modelled. -/
def get_vbat (response : List Nat) : VbatResult :=
  if response.length < 4 then .invalidLength
  else
    match response.get? 2, response.get? 3, response.get? 4, response.get? 5 with
    | some a, some b, some c, some d => .ok [a, b, c, d]
    | _, _, _, _ => .panicked

end Bootloader

/-- One observable bootloader call made by the flashing engine: a
`load_buffer(page, offset, data)` staging call or a
`write_flash(buffer_page, flash_page, n_pages)` commit call. -/
inductive FlashEvent where
  | loadBuffer : Nat → Nat → List Nat → FlashEvent
  | writeFlash : Nat → Nat → Nat → FlashEvent
deriving DecidableEq

/-- Result of the flashing loop: completed, or aborted at the first
non-success flash response with the failing page and the reported error
kind (the `anyhow` error built at src/cfloader.rs lines 222-227). -/
inductive FlashResult where
  | ok : FlashResult
  | flashFailed : Nat → FlashError → FlashResult
deriving DecidableEq

/-- Result of `CFLoader::flash_image_internal`: the loop outcome with its
event trace, the precondition error of src/cfloader.rs lines 182-187, or
the division-by-zero panic that a zero page size causes at line 179. -/
inductive FlashOutcome where
  | ok : List FlashEvent → FlashOutcome
  | flashFailed : List FlashEvent → Nat → FlashError → FlashOutcome
  | pageBeforeFlashStart : Nat → Nat → FlashOutcome
  | panicked : FlashOutcome
deriving DecidableEq

/-- The event trace of a flash outcome (empty when the engine never reached
the loop). -/
def FlashOutcome.events : FlashOutcome → List FlashEvent
  | .ok evs => evs
  | .flashFailed evs _ _ => evs
  | .pageBeforeFlashStart _ _ => []
  | .panicked => []

namespace CFLoader

/-- Inner loop of `CFLoader::load_chunk_to_buffer` (src/cfloader.rs lines
256-276): split one page worth of data into `load_buffer` calls of at most
25 bytes, with the page offset starting at 0 and advancing by each call
size.  `page_offset` is a u16 in the source; offsets stay at most
`page_size ≤ 65535`, so the addition never wraps and is modelled as plain
`Nat` addition.  `fuel` bounds the iterations; every iteration consumes at
least one byte, so call sites pass the group length, which always
suffices. -/
def load_page_calls : Nat → Nat → Nat → List Nat → List FlashEvent
  | 0, _, _, _ => []
  | fuel + 1, bufPage, off, group =>
    if group = [] then []
    else
      let sz := min group.length 25
      FlashEvent.loadBuffer bufPage off (group.take sz) ::
        load_page_calls fuel bufPage (off + sz) (group.drop sz)

/-- Outer loop of `CFLoader::load_chunk_to_buffer` (src/cfloader.rs lines
244-283): walk the chunk one buffer page at a time (`bytes_to_write =
min(remaining, page_size)`), incrementing the buffer page.  `fuel` bounds
the number of loop iterations; `none` models divergence (which the Rust
loop exhibits when `page_size = 0` and the chunk is non-empty).
`buffer_page` is a u16 in the source; a chunk never spans more than
`n_buff_page ≤ 65535` pages, so the increment never wraps. -/
def load_chunk_to_buffer (psize : Nat) :
    Nat → Nat → List Nat → Option (List FlashEvent)
  | 0, _, chunk => if chunk = [] then some [] else none
  | fuel + 1, bufPage, chunk =>
    if chunk = [] then some []
    else
      let bytes := min chunk.length psize
      match load_chunk_to_buffer psize fuel (bufPage + 1) (chunk.drop bytes) with
      | none => none
      | some rest => some (load_page_calls bytes bufPage 0 (chunk.take bytes) ++ rest)

/-- The loop of `CFLoader::flash_image_internal` (src/cfloader.rs lines
190-238).  `oracle k` is the `FlashWriteResponse` the device returns to the
k-th `write_flash` of the run (the transport is abstracted: `write_flash`
transactions are assumed to complete).  Per iteration: take a chunk of at
most `page_size * n_buff_pages` bytes, compute the flash page
(`(current_address / page_size) as u16`, modelled with `% 65536`) and the
page count (`((chunk_size + page_size - 1) / page_size) as u16`), stage the
chunk, commit it, and abort on a non-success response.  `current_address`
is a u32, so its advance is reduced `% 4294967296`.  `fuel` bounds the
iterations; `none` models divergence. -/
def flash_loop (oracle : Nat → FlashWriteResponse) (psize nbuff : Nat) :
    Nat → List Nat → Nat → Nat → Option (List FlashEvent × FlashResult)
  | 0, image, _, _ => if image = [] then some ([], .ok) else none
  | fuel + 1, image, addr, k =>
    if image = [] then some ([], .ok)
    else
      let bsize := psize * nbuff
      let chunk := image.take bsize
      let curPage := (addr / psize) % 65536
      let pages := ((chunk.length + psize - 1) / psize) % 65536
      match load_chunk_to_buffer psize chunk.length 0 chunk with
      | none => none
      | some stageEvs =>
        let evs := stageEvs ++ [FlashEvent.writeFlash 0 curPage pages]
        let resp := oracle k
        if resp.is_success then
          match flash_loop oracle psize nbuff fuel (image.drop bsize)
              ((addr + chunk.length) % 4294967296) (k + 1) with
          | none => none
          | some (evs2, res) => some (evs ++ evs2, res)
        else some (evs, .flashFailed curPage (FlashError.fromByte resp.error))

/-- `CFLoader::flash_image_internal` (src/cfloader.rs lines 156-241) after
target resolution: `psize`, `nbuff` and `flash_start` are the
`page_size`, `n_buff_page` and `flash_start` fields of the chosen target
info.  A zero page size makes the u32 division at line 179 panic; a start
page below `flash_start` is rejected before any bootloader call; otherwise
the loop runs with the write-flash response oracle. -/
def flash_image_internal (oracle : Nat → FlashWriteResponse)
    (psize nbuff flash_start : Nat) (start_address : Nat) (image : List Nat) :
    Option FlashOutcome :=
  if psize = 0 then some .panicked
  else
    let start_page := (start_address / psize) % 65536
    if start_page < flash_start then
      some (.pageBeforeFlashStart start_page flash_start)
    else
      match flash_loop oracle psize nbuff (image.length + 1) image start_address 0 with
      | none => none
      | some (evs, .ok) => some (.ok evs)
      | some (evs, .flashFailed p e) => some (.flashFailed evs p e)

/-- Result of `CFLoader::read_flash`: a normally returned byte vector, or a
propagated failure of one `Bootloader::read_flash` transaction (the
question-mark operator at src/cfloader.rs lines 379 and 382). -/
inductive ReadResult where
  | ok : List Nat → ReadResult
  | transactionFailed : ReadResult
deriving DecidableEq

/-- The loop of `CFLoader::read_flash` (src/cfloader.rs lines 368-398).
`dev page off` is the outcome of the `Bootloader::read_flash` transaction
for that page and offset: `none` models a transaction error (link failure,
short response or stale packet, propagated by the question-mark operator),
`some data` the `data` field of the returned, echo-validated packet.  Per
iteration: `read_size = min(remaining, 27)`, page and offset are computed
from the u32 address with u16 casts, `take = min(read_size, data.len())`
bytes are appended, and `take = 0` breaks the loop, after which the bytes
collected so far are returned normally. -/
def read_flash_go (dev : Nat → Nat → Option (List Nat)) (psize length : Nat) :
    Nat → Nat → Nat → List Nat → Option ReadResult
  | 0, _, _, _ => none
  | fuel + 1, bytes_read, addr, acc =>
    if bytes_read < length then
      let read_size := min (length - bytes_read) 27
      let curPage := (addr / psize) % 65536
      let pageOff := (addr % psize) % 65536
      match dev curPage pageOff with
      | none => some .transactionFailed
      | some data =>
        let toTake := min read_size data.length
        if toTake = 0 then some (.ok acc)
        else
          read_flash_go dev psize length fuel (bytes_read + toTake)
            ((addr + toTake) % 4294967296) (acc ++ data.take toTake)
    else some (.ok acc)

/-- `CFLoader::read_flash` (src/cfloader.rs lines 352-401) after target
resolution (`psize` is the page size of the chosen target info).  The fuel
`length + 1` always suffices: every iteration either terminates the loop or
collects at least one byte, and the loop guard stops at `length` bytes. -/
def read_flash (dev : Nat → Nat → Option (List Nat))
    (psize start_address length : Nat) : Option ReadResult :=
  read_flash_go dev psize length (length + 1) 0 start_address []

end CFLoader

namespace SpecModel

/-- Modelled from the words of the specification (section 4.4, step 2a) and
of claim C1, for comparison with the code model: stage a chunk into RAM
buffer pages starting at the given coordinate, splitting into load_buffer
calls of at most 25 payload bytes each (also capped by the room left in the
page), advancing `(buffer_page, offset)` monotonically and moving to the
next buffer page when the offset reaches `page_size`.  The `t = 0` arm only
guards totality: it is unreachable while `off < psize`.  The leading fuel
argument bounds the iterations; every emitted call consumes at least one
byte, so passing the data length always suffices. -/
def stage : Nat → Nat → Nat → Nat → List Nat → List FlashEvent
  | 0, _, _, _, _ => []
  | fuel + 1, psize, bufPage, off, data =>
    if data = [] then []
    else
      let t := min (min 25 (psize - off)) data.length
      if t = 0 then []
      else
        FlashEvent.loadBuffer bufPage off (data.take t) ::
          (if off + t = psize then stage fuel psize (bufPage + 1) 0 (data.drop t)
           else stage fuel psize bufPage (off + t) (data.drop t))

/-- Modelled from the words of the specification (section 4.4) and of claim
C1, for comparison with the code model: walk the image in chunks of at most
`page_size * n_buff_page` bytes; stage each chunk starting at buffer page 0
offset 0; commit it with a single
`write_flash(buf_page = 0, flash_page = current flash page, n_pages =
ceil(chunk_len / page_size))`; fail the whole operation on the first
non-success flash response; advance the current flash page by the committed
page count.  The `psize * nbuff = 0` arm only guards totality: the claims
assume `page_size > 0` and `n_buff_page > 0`.  The leading fuel argument
bounds the chunk iterations; every chunk consumes at least one byte, so
passing the image length always suffices. -/
def flash (oracle : Nat → FlashWriteResponse) (psize nbuff : Nat) :
    Nat → List Nat → Nat → Nat → List FlashEvent × FlashResult
  | 0, _, _, _ => ([], .ok)
  | fuel + 1, image, flashPage, k =>
    if image = [] then ([], .ok)
    else if psize * nbuff = 0 then ([], .ok)
    else
      let chunk := image.take (psize * nbuff)
      let nPages := (chunk.length + psize - 1) / psize
      let evs := stage chunk.length psize 0 0 chunk ++
        [FlashEvent.writeFlash 0 flashPage nPages]
      if (oracle k).is_success then
        let rest := flash oracle psize nbuff fuel (image.drop (psize * nbuff))
          (flashPage + nPages) (k + 1)
        (evs ++ rest.1, rest.2)
      else (evs, .flashFailed flashPage (FlashError.fromByte (oracle k).error))

/-- Maps a spec-side flash run to the outcome shape of the code model. -/
def toOutcome : List FlashEvent × FlashResult → FlashOutcome
  | (evs, .ok) => .ok evs
  | (evs, .flashFailed p e) => .flashFailed evs p e

end SpecModel

/-! ## Helper lemmas -/

/-- When every attempt returns the same error without advancing the radio
call index, the retry loop returns the wrapper error, also without
advancing the index. -/
theorem retryWith_error_const {α : Type} (try1 : Nat → Except BlError α × Nat)
    (e : BlError) (h : ∀ i, try1 i = (.error e, i)) :
    ∀ n idx, 1 ≤ n →
      Bllink.retryWith try1 n idx = (.error (.retriesExhausted e), idx) := by
  intro n
  induction n with
  | zero => intro idx h1; omega
  | succ n ih =>
    intro idx _
    match n with
    | 0 => simp [Bllink.retryWith, h idx]
    | m + 1 =>
      simp only [Bllink.retryWith, h idx]
      exact ih idx (by omega)

/-- Every `loadBuffer` event of the inner per-page staging loop carries at
most 25 bytes of data. -/
theorem load_page_calls_data_le_25 :
    ∀ (fuel : Nat) (group : List Nat) (bufPage off p o : Nat) (d : List Nat),
      FlashEvent.loadBuffer p o d ∈ CFLoader.load_page_calls fuel bufPage off group →
      d.length ≤ 25 := by
  intro fuel
  induction fuel with
  | zero =>
    intro group bufPage off p o d hmem
    simp [CFLoader.load_page_calls] at hmem
  | succ fuel ih =>
    intro group bufPage off p o d hmem
    unfold CFLoader.load_page_calls at hmem
    by_cases hg : group = []
    · rw [if_pos hg] at hmem
      simp at hmem
    · rw [if_neg hg] at hmem
      simp only at hmem
      rcases List.mem_cons.mp hmem with heq | hmem2
      · injection heq with h1 h2 h3
        subst h3
        simp only [List.length_take]
        omega
      · exact ih _ _ _ _ _ _ hmem2

/-- Every `loadBuffer` event of the buffer-staging loop carries at most 25
bytes of data. -/
theorem load_chunk_data_le_25 :
    ∀ (fuel : Nat) (psize bufPage p o : Nat) (chunk : List Nat)
      (evs : List FlashEvent) (d : List Nat),
      CFLoader.load_chunk_to_buffer psize fuel bufPage chunk = some evs →
      FlashEvent.loadBuffer p o d ∈ evs →
      d.length ≤ 25 := by
  intro fuel
  induction fuel with
  | zero =>
    intro psize bufPage p o chunk evs d hrun hmem
    unfold CFLoader.load_chunk_to_buffer at hrun
    by_cases hc : chunk = []
    · rw [if_pos hc] at hrun
      cases hrun
      simp at hmem
    · rw [if_neg hc] at hrun
      cases hrun
  | succ fuel ih =>
    intro psize bufPage p o chunk evs d hrun hmem
    unfold CFLoader.load_chunk_to_buffer at hrun
    by_cases hc : chunk = []
    · rw [if_pos hc] at hrun
      cases hrun
      simp at hmem
    · rw [if_neg hc] at hrun
      simp only at hrun
      rcases hrest : CFLoader.load_chunk_to_buffer psize fuel (bufPage + 1)
          (chunk.drop (min chunk.length psize)) with _ | rest
      · rw [hrest] at hrun
        cases hrun
      · rw [hrest] at hrun
        cases hrun
        rcases List.mem_append.mp hmem with hmem1 | hmem2
        · exact load_page_calls_data_le_25 _ _ _ _ _ _ _ hmem1
        · exact ih _ _ _ _ _ _ _ hrest hmem2

/-- Staging an empty data list emits no events, at any fuel. -/
theorem stage_nil (f psize bp off : Nat) :
    SpecModel.stage f psize bp off [] = [] := by
  cases f <;> simp [SpecModel.stage]

/-- The per-page loop on an empty group emits no events, at any fuel. -/
theorem load_page_calls_nil (f bp off : Nat) :
    CFLoader.load_page_calls f bp off [] = [] := by
  cases f <;> simp [CFLoader.load_page_calls]

/-- The staging loop on an empty chunk emits no events, at any fuel. -/
theorem load_chunk_nil (psize f bp : Nat) :
    CFLoader.load_chunk_to_buffer psize f bp [] = some [] := by
  cases f <;> simp [CFLoader.load_chunk_to_buffer]

/-- The spec-side flash walk of an empty image is a successful no-op, at
any fuel. -/
theorem flash_spec_nil (oracle : Nat → FlashWriteResponse)
    (psize nbuff f fp k : Nat) :
    SpecModel.flash oracle psize nbuff f [] fp k = ([], .ok) := by
  cases f <;> simp [SpecModel.flash]

/-- The fuel of the spec-side staging walk is irrelevant once it covers the
data length. -/
theorem stage_fuel :
    ∀ (k f1 f2 psize bp off : Nat) (data : List Nat),
      data.length ≤ k → data.length ≤ f1 → data.length ≤ f2 →
      SpecModel.stage f1 psize bp off data = SpecModel.stage f2 psize bp off data := by
  intro k
  induction k with
  | zero =>
    intro f1 f2 psize bp off data hk _ _
    have hd : data = [] := List.length_eq_zero.mp (Nat.le_zero.mp hk)
    subst hd
    rw [stage_nil, stage_nil]
  | succ k ih =>
    intro f1 f2 psize bp off data hk h1 h2
    by_cases hd : data = []
    · subst hd
      rw [stage_nil, stage_nil]
    · have hpos : 0 < data.length := List.length_pos.mpr hd
      obtain ⟨g1, rfl⟩ : ∃ m, f1 = m + 1 := ⟨f1 - 1, by omega⟩
      obtain ⟨g2, rfl⟩ : ∃ m, f2 = m + 1 := ⟨f2 - 1, by omega⟩
      simp only [SpecModel.stage, if_neg hd]
      by_cases ht : min (min 25 (psize - off)) data.length = 0
      · rw [if_pos ht, if_pos ht]
      · rw [if_neg ht, if_neg ht]
        have hrec : ∀ bp2 off2,
            SpecModel.stage g1 psize bp2 off2
                (data.drop (min (min 25 (psize - off)) data.length))
              = SpecModel.stage g2 psize bp2 off2
                (data.drop (min (min 25 (psize - off)) data.length)) := by
          intro bp2 off2
          apply ih
          · simp only [List.length_drop]; omega
          · simp only [List.length_drop]; omega
          · simp only [List.length_drop]; omega
        by_cases hb : off + min (min 25 (psize - off)) data.length = psize
        · rw [if_pos hb, if_pos hb, hrec]
        · rw [if_neg hb, if_neg hb, hrec]

/-- The fuel of the spec-side flash walk is irrelevant once it covers the
image length. -/
theorem flash_spec_fuel (oracle : Nat → FlashWriteResponse) (psize nbuff : Nat) :
    ∀ (k f1 f2 : Nat) (image : List Nat) (fp cidx : Nat),
      image.length ≤ k → image.length ≤ f1 → image.length ≤ f2 →
      SpecModel.flash oracle psize nbuff f1 image fp cidx
        = SpecModel.flash oracle psize nbuff f2 image fp cidx := by
  intro k
  induction k with
  | zero =>
    intro f1 f2 image fp cidx hk _ _
    have hd : image = [] := List.length_eq_zero.mp (Nat.le_zero.mp hk)
    subst hd
    rw [flash_spec_nil, flash_spec_nil]
  | succ k ih =>
    intro f1 f2 image fp cidx hk h1 h2
    by_cases hd : image = []
    · subst hd
      rw [flash_spec_nil, flash_spec_nil]
    · have hpos : 0 < image.length := List.length_pos.mpr hd
      obtain ⟨g1, rfl⟩ : ∃ m, f1 = m + 1 := ⟨f1 - 1, by omega⟩
      obtain ⟨g2, rfl⟩ : ∃ m, f2 = m + 1 := ⟨f2 - 1, by omega⟩
      simp only [SpecModel.flash, if_neg hd]
      by_cases hc : psize * nbuff = 0
      · rw [if_pos hc, if_pos hc]
      · rw [if_neg hc, if_neg hc]
        have hrec : SpecModel.flash oracle psize nbuff g1
              (image.drop (psize * nbuff))
              (fp + ((image.take (psize * nbuff)).length + psize - 1) / psize)
              (cidx + 1)
            = SpecModel.flash oracle psize nbuff g2
              (image.drop (psize * nbuff))
              (fp + ((image.take (psize * nbuff)).length + psize - 1) / psize)
              (cidx + 1) := by
          apply ih
          · simp only [List.length_drop]; omega
          · simp only [List.length_drop]; omega
          · simp only [List.length_drop]; omega
        by_cases hs : (oracle cidx).is_success
        · rw [if_pos hs, if_pos hs, hrec]
        · rw [if_neg hs, if_neg hs]

/-- Splitting the spec-side staging walk at a page boundary: walking
`g ++ rest` from a coordinate whose page has exactly room for `g` (or with
nothing after `g`) first emits the per-page calls of the code model for
`g`, then continues with `rest` on the next page (or at the advanced
offset). -/
theorem stage_split :
    ∀ (k : Nat) (g rest : List Nat) (psize bp off f1 f2 f3 : Nat),
      g.length ≤ k →
      0 < psize → off < psize → off + g.length ≤ psize →
      (off + g.length = psize ∨ rest = []) →
      g.length + rest.length ≤ f1 → g.length ≤ f2 → rest.length ≤ f3 →
      SpecModel.stage f1 psize bp off (g ++ rest)
        = CFLoader.load_page_calls f2 bp off g ++
          (if off + g.length = psize
           then SpecModel.stage f3 psize (bp + 1) 0 rest
           else SpecModel.stage f3 psize bp (off + g.length) rest) := by
  intro k
  induction k with
  | zero =>
    intro g rest psize bp off f1 f2 f3 hk hps hoff hroom hdisj hf1 hf2 hf3
    have hg : g = [] := List.length_eq_zero.mp (Nat.le_zero.mp hk)
    subst hg
    have hrest : rest = [] := by
      rcases hdisj with h | h
      · simp only [List.length_nil, Nat.add_zero] at h
        omega
      · exact h
    subst hrest
    simp [stage_nil, load_page_calls_nil]
  | succ k ih =>
    intro g rest psize bp off f1 f2 f3 hk hps hoff hroom hdisj hf1 hf2 hf3
    by_cases hg : g = []
    · subst hg
      have hrest : rest = [] := by
        rcases hdisj with h | h
        · simp only [List.length_nil, Nat.add_zero] at h
          omega
        · exact h
      subst hrest
      simp [stage_nil, load_page_calls_nil]
    · have hglen : 0 < g.length := List.length_pos.mpr hg
      obtain ⟨f1p, rfl⟩ : ∃ m, f1 = m + 1 := ⟨f1 - 1, by omega⟩
      obtain ⟨f2p, rfl⟩ : ∃ m, f2 = m + 1 := ⟨f2 - 1, by omega⟩
      have hne : g ++ rest ≠ [] := fun h => hg (List.append_eq_nil.mp h).1
      have hszg : min g.length 25 ≤ g.length := Nat.min_le_left _ _
      have hsz1 : 1 ≤ min g.length 25 := by omega
      have ht_eq : min (min 25 (psize - off)) (g ++ rest).length
          = min g.length 25 := by
        rw [List.length_append]
        rcases hdisj with h | h
        · omega
        · subst h
          simp only [List.length_nil]
          omega
      have htake : (g ++ rest).take (min g.length 25)
          = g.take (min g.length 25) := by
        rw [List.take_append_eq_append_take, Nat.sub_eq_zero_of_le hszg,
          List.take_zero, List.append_nil]
      have hdrop : (g ++ rest).drop (min g.length 25)
          = g.drop (min g.length 25) ++ rest := by
        rw [List.drop_append_eq_append_drop, Nat.sub_eq_zero_of_le hszg,
          List.drop_zero]
      simp only [SpecModel.stage, if_neg hne, ht_eq, if_neg (by omega :
        ¬ min g.length 25 = 0), htake, hdrop]
      simp only [CFLoader.load_page_calls, if_neg hg]
      by_cases hb : off + min g.length 25 = psize
      · rw [if_pos hb]
        have hszeq : min g.length 25 = g.length := by omega
        have hdropnil : g.drop (min g.length 25) = [] := by
          rw [hszeq, List.drop_length]
        rw [hdropnil, List.nil_append, if_pos (by omega : off + g.length = psize),
          load_page_calls_nil]
        rw [stage_fuel rest.length f1p f3 psize (bp + 1) 0 rest (le_refl _)
          (by omega) hf3]
        simp
      · rw [if_neg hb]
        by_cases hszeq : min g.length 25 = g.length
        · have hrest : rest = [] := by
            rcases hdisj with h | h
            · omega
            · exact h
          subst hrest
          rw [hszeq, List.drop_length, List.nil_append,
            if_neg (by omega : ¬ off + g.length = psize)]
          simp [stage_nil, load_page_calls_nil]
        · have hsz25 : min g.length 25 = 25 := by omega
          have hoff2 : off + min g.length 25 < psize := by omega
          have hdroplen : (g.drop (min g.length 25)).length
              = g.length - min g.length 25 := List.length_drop _ _
          have hoo : off + min g.length 25 + (g.drop (min g.length 25)).length
              = off + g.length := by
            rw [hdroplen]; omega
          have hih := ih (g.drop (min g.length 25)) rest psize bp
            (off + min g.length 25) f1p f2p f3
            (by rw [hdroplen]; omega) hps hoff2 (by rw [hoo]; omega)
            (by rw [hoo]; exact hdisj)
            (by rw [hdroplen]; omega) (by rw [hdroplen]; omega) hf3
          rw [hoo] at hih
          rw [hih]
          simp

/-- The staging loop of the code equals the spec-side staging walk of the
whole chunk from buffer coordinate `(bp, 0)`. -/
theorem load_chunk_eq_stage :
    ∀ (k : Nat) (psize fuel bp : Nat) (chunk : List Nat),
      0 < psize → chunk.length ≤ k → chunk.length ≤ fuel →
      CFLoader.load_chunk_to_buffer psize fuel bp chunk
        = some (SpecModel.stage chunk.length psize bp 0 chunk) := by
  intro k
  induction k with
  | zero =>
    intro psize fuel bp chunk hps hk hfuel
    have hc : chunk = [] := List.length_eq_zero.mp (Nat.le_zero.mp hk)
    subst hc
    rw [load_chunk_nil, stage_nil]
  | succ k ih =>
    intro psize fuel bp chunk hps hk hfuel
    by_cases hc : chunk = []
    · subst hc
      rw [load_chunk_nil, stage_nil]
    · have hclen : 0 < chunk.length := List.length_pos.mpr hc
      obtain ⟨fp, rfl⟩ : ∃ m, fuel = m + 1 := ⟨fuel - 1, by omega⟩
      have hbytes_le : min chunk.length psize ≤ chunk.length := Nat.min_le_left _ _
      have hbytes1 : 1 ≤ min chunk.length psize := by omega
      have hdroplen : (chunk.drop (min chunk.length psize)).length
          = chunk.length - min chunk.length psize := List.length_drop _ _
      have htakelen : (chunk.take (min chunk.length psize)).length
          = min chunk.length psize := by
        rw [List.length_take]; omega
      have hih := ih psize fp (bp + 1) (chunk.drop (min chunk.length psize)) hps
        (by omega) (by omega)
      simp only [CFLoader.load_chunk_to_buffer, if_neg hc, hih]
      have hsplit := stage_split (min chunk.length psize)
        (chunk.take (min chunk.length psize))
        (chunk.drop (min chunk.length psize)) psize bp 0 chunk.length
        (min chunk.length psize) (chunk.drop (min chunk.length psize)).length
        (by omega) hps hps (by rw [htakelen]; omega)
        (by
          rcases Nat.le_total psize chunk.length with h | h
          · left; rw [htakelen]; omega
          · right; exact List.drop_eq_nil_of_le (by omega))
        (by rw [htakelen, hdroplen]; omega) (by omega) (le_refl _)
      rw [List.take_append_drop] at hsplit
      rw [hsplit, htakelen, Nat.zero_add]
      by_cases hfull : min chunk.length psize = psize
      · rw [if_pos hfull]
      · rw [if_neg hfull]
        have hrest : chunk.drop (min chunk.length psize) = [] :=
          List.drop_eq_nil_of_le (by omega)
        rw [hrest]
        simp [stage_nil]

/-- The code flashing loop equals the spec-side flash walk, provided the
page geometry is a valid u16 geometry and the image stays inside the
2^16-page address space (so that the u16 and u32 casts of the code are
lossless). -/
theorem flash_loop_eq_spec (oracle : Nat → FlashWriteResponse) (psize nbuff : Nat)
    (hps : 0 < psize) (hps16 : psize ≤ 65535)
    (hnb : 0 < nbuff) (hnb16 : nbuff ≤ 65535) :
    ∀ (k : Nat) (image : List Nat) (addr cidx : Nat),
      image.length ≤ k →
      addr + image.length < psize * 65536 →
      CFLoader.flash_loop oracle psize nbuff k image addr cidx
        = some (SpecModel.flash oracle psize nbuff image.length image
            (addr / psize) cidx) := by
  intro k
  induction k with
  | zero =>
    intro image addr cidx hk hbound
    have hi : image = [] := List.length_eq_zero.mp (Nat.le_zero.mp hk)
    subst hi
    rw [flash_spec_nil]
    rfl
  | succ k ih =>
    intro image addr cidx hk hbound
    by_cases hi : image = []
    · subst hi
      rw [flash_spec_nil]
      simp [CFLoader.flash_loop]
    · have hilen : 0 < image.length := List.length_pos.mpr hi
      have hcap : 0 < psize * nbuff := Nat.mul_pos hps hnb
      have hchunk_neq : image.take (psize * nbuff) ≠ [] := by
        intro h
        have := congrArg List.length h
        simp only [List.length_take, List.length_nil] at this
        omega
      have hchunklen : (image.take (psize * nbuff)).length
          = min (psize * nbuff) image.length := List.length_take _ _
      have hchunk1 : 1 ≤ (image.take (psize * nbuff)).length := by
        rw [hchunklen]; omega
      have hdivlt : addr / psize < 65536 := by
        apply Nat.div_lt_of_lt_mul
        rw [Nat.mul_comm]
        omega
      have hpages_le : ((image.take (psize * nbuff)).length + psize - 1) / psize
          ≤ nbuff := by
        have h1 : (image.take (psize * nbuff)).length + psize - 1
            ≤ psize - 1 + nbuff * psize := by
          rw [hchunklen]
          have : min (psize * nbuff) image.length ≤ psize * nbuff :=
            Nat.min_le_left _ _
          have hmul : nbuff * psize = psize * nbuff := Nat.mul_comm _ _
          omega
        calc ((image.take (psize * nbuff)).length + psize - 1) / psize
            ≤ (psize - 1 + nbuff * psize) / psize := Nat.div_le_div_right h1
          _ = (psize - 1) / psize + nbuff := Nat.add_mul_div_right _ _ hps
          _ = 0 + nbuff := by rw [Nat.div_eq_of_lt (by omega)]
          _ = nbuff := Nat.zero_add _
      have hpages_lt : ((image.take (psize * nbuff)).length + psize - 1) / psize
          < 65536 := by omega
      have hstage := load_chunk_eq_stage (image.take (psize * nbuff)).length
        psize (image.take (psize * nbuff)).length 0 (image.take (psize * nbuff))
        hps (le_refl _) (le_refl _)
      obtain ⟨fp, hfp⟩ : ∃ m, image.length = m + 1 := ⟨image.length - 1, by omega⟩
      have hspec :
          SpecModel.flash oracle psize nbuff image.length image (addr / psize) cidx
            = if (oracle cidx).is_success then
                ((SpecModel.stage (image.take (psize * nbuff)).length psize 0 0
                    (image.take (psize * nbuff)) ++
                  [FlashEvent.writeFlash 0 (addr / psize)
                    (((image.take (psize * nbuff)).length + psize - 1) / psize)]) ++
                  (SpecModel.flash oracle psize nbuff fp
                    (image.drop (psize * nbuff))
                    (addr / psize +
                      ((image.take (psize * nbuff)).length + psize - 1) / psize)
                    (cidx + 1)).1,
                  (SpecModel.flash oracle psize nbuff fp
                    (image.drop (psize * nbuff))
                    (addr / psize +
                      ((image.take (psize * nbuff)).length + psize - 1) / psize)
                    (cidx + 1)).2)
              else
                (SpecModel.stage (image.take (psize * nbuff)).length psize 0 0
                    (image.take (psize * nbuff)) ++
                  [FlashEvent.writeFlash 0 (addr / psize)
                    (((image.take (psize * nbuff)).length + psize - 1) / psize)],
                  .flashFailed (addr / psize)
                    (FlashError.fromByte (oracle cidx).error)) := by
        rw [hfp]
        simp only [SpecModel.flash, if_neg hi, if_neg (by omega :
          ¬ psize * nbuff = 0)]
      rw [hspec]
      simp only [CFLoader.flash_loop, if_neg hi, hstage,
        Nat.mod_eq_of_lt hdivlt, Nat.mod_eq_of_lt hpages_lt]
      by_cases hs : (oracle cidx).is_success
      · rw [if_pos hs, if_pos hs]
        have hdroplen : (image.drop (psize * nbuff)).length
            = image.length - psize * nbuff := List.length_drop _ _
        have hwrap : (addr + (image.take (psize * nbuff)).length) % 4294967296
            = addr + (image.take (psize * nbuff)).length := by
          apply Nat.mod_eq_of_lt
          have h1 : psize * 65536 ≤ 65535 * 65536 := Nat.mul_le_mul_right _ hps16
          rw [hchunklen]
          omega
        rw [hwrap]
        by_cases hsmall : image.length ≤ psize * nbuff
        · have hrest : image.drop (psize * nbuff) = [] :=
            List.drop_eq_nil_of_le hsmall
          have hih := ih (image.drop (psize * nbuff))
            (addr + (image.take (psize * nbuff)).length) (cidx + 1)
            (by rw [hdroplen]; omega)
            (by rw [hdroplen, hchunklen]; omega)
          rw [hih, hrest, flash_spec_nil, flash_spec_nil]
        · push_neg at hsmall
          have hchunkfull : (image.take (psize * nbuff)).length = psize * nbuff := by
            rw [hchunklen]; omega
          have hpagefull : ((image.take (psize * nbuff)).length + psize - 1) / psize
              = nbuff := by
            rw [hchunkfull]
            have h1 : psize * nbuff + psize - 1 = psize - 1 + nbuff * psize := by
              have hmul : nbuff * psize = psize * nbuff := Nat.mul_comm _ _
              omega
            rw [h1, Nat.add_mul_div_right _ _ hps, Nat.div_eq_of_lt (by omega),
              Nat.zero_add]
          have hpageadv : (addr + (image.take (psize * nbuff)).length) / psize
              = addr / psize + nbuff := by
            rw [hchunkfull]
            have h1 : addr + psize * nbuff = addr + nbuff * psize := by
              rw [Nat.mul_comm]
            rw [h1, Nat.add_mul_div_right _ _ hps]
          have hih := ih (image.drop (psize * nbuff))
            (addr + (image.take (psize * nbuff)).length) (cidx + 1)
            (by rw [hdroplen]; omega)
            (by rw [hdroplen, hchunkfull]; omega)
          rw [hih, hpageadv, hpagefull]
          have hfueleq := flash_spec_fuel oracle psize nbuff
            (image.drop (psize * nbuff)).length
            (image.drop (psize * nbuff)).length fp (image.drop (psize * nbuff))
            (addr / psize + nbuff) (cidx + 1) (le_refl _) (le_refl _)
            (by rw [hdroplen]; omega)
          rw [hfueleq]
      · rw [if_neg hs, if_neg hs]

/-! ## Claim theorems -/

/-- C1: for every target whose info is a valid u16 page geometry with
`page_size > 0` (and, per the info invariants of the data model,
`n_buff_page ≥ 1`), every start address whose page passes the
`flash_start` precondition, and every image that stays inside the
2^16-page address space (so the u16/u32 casts of the code are lossless),
the flashing engine behaves exactly as the specification describes: its
run equals the spec-side walk that takes chunks of at most
`page_size * n_buff_page` bytes, stages each chunk into buffer pages from
`(0, 0)` via `load_buffer` calls of at most 25 payload bytes (moving to
the next buffer page when the offset reaches `page_size`), commits each
chunk with one `write_flash(0, current_flash_page,
ceil(chunk_len / page_size))`, and fails on the first non-success flash
response.  `oracle k` is the response of the k-th `write_flash`. -/
theorem flash_image_internal_matches_spec
    (oracle : Nat → FlashWriteResponse)
    (psize nbuff flash_start start_address : Nat) (image : List Nat)
    (hps : 0 < psize) (hps16 : psize ≤ 65535)
    (hnb : 0 < nbuff) (hnb16 : nbuff ≤ 65535)
    (hstart : flash_start ≤ start_address / psize)
    (hbound : start_address + image.length < psize * 65536) :
    CFLoader.flash_image_internal oracle psize nbuff flash_start
        start_address image
      = some (SpecModel.toOutcome
          (SpecModel.flash oracle psize nbuff image.length image
            (start_address / psize) 0)) := by
  have hdivlt : start_address / psize < 65536 := by
    apply Nat.div_lt_of_lt_mul
    rw [Nat.mul_comm]
    omega
  unfold CFLoader.flash_image_internal
  rw [if_neg (by omega : ¬ psize = 0)]
  simp only [Nat.mod_eq_of_lt hdivlt]
  rw [if_neg (by omega : ¬ start_address / psize < flash_start)]
  rw [flash_loop_eq_spec oracle psize nbuff hps hps16 hnb hnb16
    (image.length + 1) image start_address 0 (by omega) hbound]
  rcases hpair : SpecModel.flash oracle psize nbuff image.length image
    (start_address / psize) 0 with ⟨evs, res⟩
  cases res <;> rfl

/-- C1 witness: flashing a 10-byte image with 4-byte pages and 2 buffer
pages, with a device acknowledging every write. -/
theorem flash_image_internal_matches_spec_witness :
    CFLoader.flash_image_internal (fun _ => ⟨1, 0⟩) 4 2 0 0
        [0, 1, 2, 3, 4, 5, 6, 7, 8, 9]
      = some (SpecModel.toOutcome
          (SpecModel.flash (fun _ => ⟨1, 0⟩) 4 2
            ([0, 1, 2, 3, 4, 5, 6, 7, 8, 9] : List Nat).length
            [0, 1, 2, 3, 4, 5, 6, 7, 8, 9] (0 / 4) 0)) :=
  flash_image_internal_matches_spec (fun _ => ⟨1, 0⟩) 4 2 0 0
    [0, 1, 2, 3, 4, 5, 6, 7, 8, 9] (by decide) (by decide) (by decide)
    (by decide) (by decide) (by decide)

/-- C3 counterexample: with a device whose `read_flash` transactions succeed
but contribute zero bytes, the facade read of 5 bytes returns normally
(`ReadResult.ok`) with an empty vector; it does not abort with an error.
The only failure channel of the modelled code is `transactionFailed` (a
propagated transaction error); no ShortRead error exists in the code. -/
theorem read_returns_normally_on_empty_contribution_cex :
    CFLoader.read_flash (fun _ _ => some []) 1024 0 5
        = some (CFLoader.ReadResult.ok []) ∧
    CFLoader.ReadResult.ok [] ≠ CFLoader.ReadResult.transactionFailed := by
  constructor
  · rfl
  · decide

/-- C3 (amended): at any loop state with bytes still to read, if the
`read_flash` transaction for the current page and offset contributes zero
bytes, the loop breaks and the operation returns normally with the bytes
collected so far, rather than aborting with a ShortRead error. -/
theorem read_flash_breaks_on_zero_take
    (dev : Nat → Nat → Option (List Nat)) (psize length fuel bytes_read addr : Nat)
    (acc : List Nat)
    (hbr : bytes_read < length)
    (hdev : dev ((addr / psize) % 65536) ((addr % psize) % 65536) = some []) :
    CFLoader.read_flash_go dev psize length (fuel + 1) bytes_read addr acc
      = some (.ok acc) := by
  unfold CFLoader.read_flash_go
  rw [if_pos hbr]
  simp only [hdev]
  simp

/-- C3 witness: instantiation of the break behaviour at a concrete input. -/
theorem read_flash_breaks_on_zero_take_witness :
    CFLoader.read_flash_go (fun _ _ => some []) 8 3 1 0 0 [5]
      = some (.ok [5]) :=
  read_flash_breaks_on_zero_take (fun _ _ => some []) 8 3 0 0 0 [5]
    (by decide) rfl

/-- Accumulated-length invariant of the read loop: a normal result extends
the accumulator by at most the bytes still to read. -/
theorem read_flash_go_length_le
    (dev : Nat → Nat → Option (List Nat)) (psize length : Nat) :
    ∀ (fuel bytes_read addr : Nat) (acc r : List Nat),
      CFLoader.read_flash_go dev psize length fuel bytes_read addr acc
        = some (.ok r) →
      r.length ≤ acc.length + (length - bytes_read) := by
  intro fuel
  induction fuel with
  | zero =>
    intro bytes_read addr acc r h
    cases h
  | succ fuel ih =>
    intro bytes_read addr acc r h
    unfold CFLoader.read_flash_go at h
    by_cases hbr : bytes_read < length
    · rw [if_pos hbr] at h
      simp only at h
      rcases hdev : dev ((addr / psize) % 65536) ((addr % psize) % 65536)
        with _ | data
      · rw [hdev] at h
        cases h
      · rw [hdev] at h
        simp only at h
        by_cases htk : min (min (length - bytes_read) 27) data.length = 0
        · rw [if_pos htk] at h
          cases h
          omega
        · rw [if_neg htk] at h
          have hrec := ih _ _ _ _ h
          simp only [List.length_append, List.length_take] at hrec
          omega
    · rw [if_neg hbr] at h
      cases h
      omega

/-- C10: whatever the device returns (including responses carrying more
data than requested), a byte vector returned normally by the facade read
has length at most the requested `length`. -/
theorem read_flash_length_le_requested
    (dev : Nat → Nat → Option (List Nat)) (psize start_address length : Nat)
    (r : List Nat)
    (h : CFLoader.read_flash dev psize start_address length
          = some (.ok r)) :
    r.length ≤ length := by
  have hgo := read_flash_go_length_le dev psize length (length + 1)
    0 start_address [] r h
  simpa using hgo

/-- C10 witness: a device answering every read with one byte; reading 2
bytes returns a 2-byte vector, within the requested length. -/
theorem read_flash_length_le_requested_witness :
    ([7, 7] : List Nat).length ≤ 2 :=
  read_flash_length_le_requested (fun _ _ => some [7]) 4 0 2 [7, 7] rfl

/-- Exactness invariant of the read loop under a device that answers every
in-capacity read with at least one byte: the loop extends the accumulator
by exactly the bytes still to read. -/
theorem read_flash_go_exact
    (dev : Nat → Nat → Option (List Nat)) (psize nfp start length : Nat)
    (hps : 0 < psize) (hps16 : psize ≤ 65535) (hnfp : nfp ≤ 65535)
    (hdev : ∀ p o, p * psize + o < psize * nfp → ∃ d, dev p o = some d ∧ d ≠ [])
    (hlen : start + length ≤ psize * nfp) :
    ∀ (fuel bytes_read : Nat) (acc : List Nat),
      bytes_read ≤ length → length - bytes_read < fuel →
      ∃ ext : List Nat,
        CFLoader.read_flash_go dev psize length fuel bytes_read
            (start + bytes_read) acc = some (.ok (acc ++ ext)) ∧
        ext.length = length - bytes_read := by
  intro fuel
  induction fuel with
  | zero =>
    intro br acc h1 h2
    omega
  | succ fuel ih =>
    intro br acc hbrle hfuel
    by_cases hbr : br < length
    case neg =>
      refine ⟨[], ?_, by simp; omega⟩
      unfold CFLoader.read_flash_go
      rw [if_neg hbr]
      simp
    case pos =>
      have haddr : start + br < psize * nfp := by omega
      have hcap65 : psize * nfp ≤ 65535 * 65535 := Nat.mul_le_mul hps16 hnfp
      have hdivlt : (start + br) / psize < 65536 := by
        apply Nat.div_lt_of_lt_mul
        calc start + br < psize * nfp := haddr
          _ ≤ psize * 65535 := Nat.mul_le_mul_left _ hnfp
          _ ≤ psize * 65536 := Nat.mul_le_mul_left _ (by omega)
      have hmodp : (start + br) % psize < 65536 :=
        lt_of_lt_of_le (Nat.mod_lt _ hps) (by omega)
      obtain ⟨d, hd, hdne⟩ :=
        hdev ((start + br) / psize) ((start + br) % psize) (by
          calc ((start + br) / psize) * psize + (start + br) % psize
              = start + br := Nat.div_add_mod' _ _
            _ < psize * nfp := haddr)
      have hdlen : 0 < d.length := List.length_pos.mpr hdne
      have htake_le : min (min (length - br) 27) d.length ≤ length - br := by
        calc min (min (length - br) 27) d.length
            ≤ min (length - br) 27 := Nat.min_le_left _ _
          _ ≤ length - br := Nat.min_le_left _ _
      have htake_led : min (min (length - br) 27) d.length ≤ d.length :=
        Nat.min_le_right _ _
      have htk : 0 < min (min (length - br) 27) d.length :=
        lt_min_iff.mpr ⟨lt_min_iff.mpr ⟨by omega, by omega⟩, hdlen⟩
      have hwrap : (start + br + min (min (length - br) 27) d.length) % 4294967296
          = start + (br + min (min (length - br) 27) d.length) := by
        rw [Nat.mod_eq_of_lt (by omega)]
        omega
      obtain ⟨ext, hgo, hext⟩ :=
        ih (br + min (min (length - br) 27) d.length)
          (acc ++ d.take (min (min (length - br) 27) d.length))
          (by omega) (by omega)
      refine ⟨d.take (min (min (length - br) 27) d.length) ++ ext, ?_, ?_⟩
      · unfold CFLoader.read_flash_go
        rw [if_pos hbr]
        simp only [Nat.mod_eq_of_lt hdivlt, Nat.mod_eq_of_lt hmodp, hd]
        rw [if_neg (by omega)]
        rw [hwrap, ← List.append_assoc]
        exact hgo
      · simp only [List.length_append, List.length_take]
        omega

/-- C2: for every valid page geometry (`0 < page_size ≤ 65535` pages of a
u16-paged flash with at most 65535 pages) and a device whose `read_flash`
transactions succeed with at least one byte of data for every in-capacity
coordinate, reading any `(start_address, length)` with
`start_address + length` at most the flash capacity
(`page_size * n_flash_page` bytes) returns a byte vector of length exactly
`length`. -/
theorem read_flash_returns_exact_length
    (dev : Nat → Nat → Option (List Nat)) (psize nfp start_address length : Nat)
    (hps : 0 < psize) (hps16 : psize ≤ 65535) (hnfp : nfp ≤ 65535)
    (hdev : ∀ p o, p * psize + o < psize * nfp → ∃ d, dev p o = some d ∧ d ≠ [])
    (hlen : start_address + length ≤ psize * nfp) :
    ∃ r : List Nat,
      CFLoader.read_flash dev psize start_address length = some (.ok r) ∧
      r.length = length := by
  obtain ⟨ext, hgo, hext⟩ :=
    read_flash_go_exact dev psize nfp start_address length hps hps16 hnfp hdev
      hlen (length + 1) 0 [] (by omega) (by omega)
  refine ⟨ext, ?_, by omega⟩
  unfold CFLoader.read_flash
  simpa using hgo

/-- C2 witness: a 4-byte-page, 10-page device answering every read with one
byte; reading 5 bytes from address 3 returns exactly 5 bytes. -/
theorem read_flash_returns_exact_length_witness :
    ∃ r : List Nat,
      CFLoader.read_flash (fun p o => some [p + o + 1]) 4 3 5
          = some (.ok r) ∧
      r.length = 5 :=
  read_flash_returns_exact_length (fun p o => some [p + o + 1]) 4 10 3 5
    (by decide) (by decide) (by decide)
    (fun p o _ => ⟨[p + o + 1], rfl, by simp⟩) (by decide)

/-- C4: response processing of `get_vbat` at the failing input, a 4-byte
response `[0xFF, 0xFE, 0x04, 0x00]`.  The length guard of the code only
rejects responses shorter than 4 bytes, yet the code then indexes response
bytes 2..6, so a 4-byte (or 5-byte) response panics with an
index-out-of-bounds abort instead of returning the documented error.  The
conjuncts contrast the three behaviours: panic at length 4, error return
below length 4, normal decode from length 6 on. -/
theorem get_vbat_panics_on_4_byte_response :
    Bootloader.get_vbat [0xFF, 0xFE, 0x04, 0x00] = .panicked ∧
    Bootloader.get_vbat [0xFF, 0xFE, 0x04] = .invalidLength ∧
    Bootloader.get_vbat [0xFF, 0xFE, 0x04, 0x11, 0x22, 0x33]
      = .ok [0x04, 0x11, 0x22, 0x33] := by
  decide

/-- C5 counterexample: on inputs shorter than the documented minimum the
codecs do not return a Malformed error value to the caller; the Rust code
executes `panic!`, terminating the program (modelled by
`PResult.panicked`; the codec result type has no error channel at all). -/
theorem codecs_panic_on_short_input_cex :
    InfoPacket.from_bytes (List.replicate 21 0) = .panicked ∧
    FlashReadPacket.from_bytes [0, 0, 0, 0] = .panicked := by
  decide

/-- C5 (amended): each packet codec panics (terminating the program) when
given an input shorter than its documented minimum, rather than returning a
Malformed error value: `InfoPacket::from_bytes` below 22 bytes and
`FlashReadPacket::from_bytes` below 5 bytes (the command echo byte plus
page(2) and offset(2)). -/
theorem codecs_panic_on_short_input (bytes : List Nat) :
    (bytes.length < 22 → InfoPacket.from_bytes bytes = .panicked) ∧
    (bytes.length < 5 → FlashReadPacket.from_bytes bytes = .panicked) := by
  constructor
  · intro h
    simp [InfoPacket.from_bytes, h]
  · intro h
    simp [FlashReadPacket.from_bytes, h]

/-- C5 witness: the amended behaviour at concrete short inputs. -/
theorem codecs_panic_on_short_input_witness :
    InfoPacket.from_bytes [1, 2, 3] = .panicked ∧
    FlashReadPacket.from_bytes [9] = .panicked :=
  ⟨(codecs_panic_on_short_input [1, 2, 3]).1 (by decide),
   (codecs_panic_on_short_input [9]).2 (by decide)⟩

/-- C6: when `match_len` exceeds the data length, the single-attempt
function returns the invalid-argument error without any radio call, and the
public `request_match_response` fails with the retry wrapper around that
invalid-argument error, still without any radio call.  The second component
of each result is the radio call index, which is returned unchanged: no
`send_packet` call is made. -/
theorem request_match_invalid_argument_no_radio_call
    (radio : Radio) (data : List Nat) (ml fuel idx : Nat)
    (h : data.length < ml) :
    Bllink.try_request_match_response radio data ml fuel idx
        = (.error .invalidArgument, idx) ∧
    Bllink.request_match_response radio data ml fuel idx
        = (.error (.retriesExhausted .invalidArgument), idx) := by
  have htry : ∀ i, Bllink.try_request_match_response radio data ml fuel i
      = (.error .invalidArgument, i) := by
    intro i
    unfold Bllink.try_request_match_response
    rw [if_pos (by omega)]
  refine ⟨htry idx, ?_⟩
  unfold Bllink.request_match_response
  exact retryWith_error_const _ _ htry Bllink.MAX_RETRIES idx (by decide)

/-- C6 witness: the invalid-argument rejection at a concrete input. -/
theorem request_match_invalid_argument_no_radio_call_witness :
    Bllink.try_request_match_response (fun _ => none) [1, 2] 3 5 4
        = (.error .invalidArgument, 4) ∧
    Bllink.request_match_response (fun _ => none) [1, 2] 3 5 4
        = (.error (.retriesExhausted .invalidArgument), 4) :=
  request_match_invalid_argument_no_radio_call (fun _ => none) [1, 2] 3 5 4
    (by decide)

/-- C7: `get_mapping` evaluated at the failing input, a device that answers
the mapping request `[0xFF, 0xFF, 0x12]` with the response
`[0xFF, 0xFF, 0x12, 0xAA]` (prefix-valid, mapping payload `[0xAA]`).  The
code slices off only the first byte, so the caller receives
`[0xFF, 0x12, 0xAA]` - the target and command echo bytes are kept - instead
of the raw mapping bytes `[0xAA]` left after the 3-byte echo. -/
theorem get_mapping_keeps_target_and_cmd_echo :
    Bootloader.get_mapping (fun _ => some (true, [0xFF, 0xFF, 0x12, 0xAA]))
        Bootloader.TARGET_STM32 2 0 = (.ok [0xFF, 0x12, 0xAA], 1) ∧
    ([0xFF, 0x12, 0xAA] : List Nat) ≠ [0xAA] := by
  constructor
  · rfl
  · decide

/-- C8 counterexample: with a radio that never acknowledges (every link
send fails), `reset_init` does not return success: the send error is
propagated to the caller by the question-mark operator.  The result shows
the retry-wrapped no-ACK error after the 10 attempts (one radio call each,
hence final call index 10). -/
theorem reset_init_propagates_send_error_cex :
    Bootloader.reset_init (fun _ => some (false, [])) Bootloader.TARGET_NRF51 1 0
      = (.error (.retriesExhausted .noAck), 10) := by
  rfl

/-- C8 (amended): the fire-and-forget commands `reset`, `all_off`,
`sys_off` and `sys_on` return success for every radio behaviour - link
errors are swallowed - while `reset_init` propagates the result of the
underlying link send unchanged to the caller. -/
theorem fire_and_forget_swallow_link_errors
    (radio : Radio) (target fuel idx : Nat) :
    (Bootloader.reset radio target fuel idx).1 = .ok () ∧
    (Bootloader.all_off radio target fuel idx).1 = .ok () ∧
    (Bootloader.sys_off radio target fuel idx).1 = .ok () ∧
    (Bootloader.sys_on radio target fuel idx).1 = .ok () ∧
    Bootloader.reset_init radio target fuel idx
      = Bllink.send radio [0xFF, target, 0xFF] fuel idx := by
  refine ⟨rfl, rfl, rfl, rfl, ?_⟩
  unfold Bootloader.reset_init
  rcases hs : Bllink.send radio [0xFF, target, 0xFF] fuel idx with ⟨r, i⟩
  cases r with
  | error e => rfl
  | ok u => rfl

/-- C9: the buffer-staging loop of the flashing engine only emits
`load_buffer` calls whose data slice has at most 25 bytes, so
`Bootloader::load_buffer` invoked on any such call never takes its
payload-too-large branch: it proceeds directly to the framed link send. -/
theorem staging_calls_at_most_25_bytes
    (psize : Nat) (chunk : List Nat) (hps : 1 ≤ psize)
    (fuel : Nat) (evs : List FlashEvent) (p o : Nat) (d : List Nat)
    (hrun : CFLoader.load_chunk_to_buffer psize fuel 0 chunk = some evs)
    (hmem : FlashEvent.loadBuffer p o d ∈ evs) :
    d.length ≤ 25 ∧
    ∀ (radio : Radio) (target sfuel idx : Nat),
      Bootloader.load_buffer radio target p o d sfuel idx
        = Bllink.send radio ([0xFF, target, 0x14] ++ toLE2 p ++ toLE2 o ++ d)
            sfuel idx := by
  have h25 := load_chunk_data_le_25 fuel psize 0 p o chunk evs d hrun hmem
  refine ⟨h25, fun radio target sfuel idx => ?_⟩
  unfold Bootloader.load_buffer
  rw [if_neg (by omega)]

/-- C9 witness: instantiation at a concrete chunk. -/
theorem staging_calls_at_most_25_bytes_witness :
    ([1, 2, 3] : List Nat).length ≤ 25 ∧
    ∀ (radio : Radio) (target sfuel idx : Nat),
      Bootloader.load_buffer radio target 0 0 [1, 2, 3] sfuel idx
        = Bllink.send radio
            ([0xFF, target, 0x14] ++ toLE2 0 ++ toLE2 0 ++ [1, 2, 3])
            sfuel idx :=
  staging_calls_at_most_25_bytes 4 [1, 2, 3] (by decide) 3
    [FlashEvent.loadBuffer 0 0 [1, 2, 3]] 0 0 [1, 2, 3] (by decide) (by decide)

end CFL
